import Mathlib

/-!
Verification development for the mitmproxy forwarding addon
(src/forward_code.py; src/forward_code2.py is a line-numbered duplicate).

The addon classifies each client request: requests tagged with the header
x-source equal to connector-service are paused and delegated to an external
connector service; all other requests flow through normally, with the
correlation header x-request-id stripped before upstream forwarding,
restored into the client-bound response, and an enrichment report shipped
asynchronously to a reporting endpoint.

Modelling conventions:
- mitmproxy Headers objects are an ordered list of name-value pairs in which
  a name may repeat.  Name lookups are case-insensitive; reading a name with
  several values folds them with a comma-space separator (RFC 7230 folding),
  as documented for mitmproxy Headers; deleting a name removes every
  occurrence; assigning a name replaces the first occurrence in place and
  drops the rest (mitmproxy set_all with a single value).
- Python dicts (the removed-headers record, the process-wide stored_headers
  map, and the last-write-wins view built by the serializer) are
  insertion-ordered association lists with exact string keys, overwrite on
  repeated assignment, and first-match lookup.
- Python dict(headers) applied to a Headers object iterates the distinct
  names in first-occurrence order and reads each through the folding getter.
- request bodies and response bodies are byte lists; bytes.decode with the
  utf-8 codec and the replace error policy is modelled by a total decoder
  that substitutes U+FFFD for undecodable sequences.
- The two hooks and the connector worker are pure state transformers over an
  explicit flow value and an explicit store value; the outbound HTTP calls
  and raised exceptions are modelled by explicit outcome parameters, since
  any exception inside the corresponding try block lands in its except or
  finally clause.
-/

namespace Fwd

/-- Lowercase a string character by character; models the case folding that
mitmproxy applies to header names. -/
def lowerStr (s : String) : String := String.mk (s.data.map Char.toLower)

/-- Case-insensitive header-name comparison used by the mitmproxy Headers
object for every name lookup. -/
def keyMatch (a b : String) : Bool := decide (lowerStr a = lowerStr b)

/-- Header fields as stored by a mitmproxy Headers object: an ordered list of
name-value pairs in which the same name may repeat. -/
abbrev HeaderFields := List (String × String)

/-- First-match lookup in a Python dict modelled as an insertion-ordered
association list with exact string keys. -/
def dictGet {α : Type} : List (String × α) → String → Option α
  | [], _ => none
  | (k, v) :: rest, key => if k = key then some v else dictGet rest key

/-- Python dict assignment: overwrite the value in place when the key already
exists, otherwise append a fresh entry. -/
def dictInsert {α : Type} : List (String × α) → String → α → List (String × α)
  | [], key, v => [(key, v)]
  | (k, w) :: rest, key, v =>
    if k = key then (k, v) :: rest else (k, w) :: dictInsert rest key v

/-- Python dict.pop: drop the entry carrying the key. -/
def dictRemove {α : Type} (d : List (String × α)) (key : String) :
    List (String × α) :=
  d.filter (fun p => !decide (p.1 = key))

/-- All values stored for a header name, in field order; models the
mitmproxy Headers get_all accessor. -/
def getAll (fields : HeaderFields) (name : String) : List String :=
  (fields.filter (fun p => keyMatch p.1 name)).map Prod.snd

/-- Python str.join with the separator ", ", as used by mitmproxy Headers
when reading a multi-valued name (RFC 7230 folding). -/
def foldValues : List String → String
  | [] => ""
  | [v] => v
  | v :: rest => v ++ ", " ++ foldValues rest

/-- mitmproxy Headers getitem: absent when no field matches, otherwise the
comma-folded list of all values for the name. -/
def hGet (fields : HeaderFields) (name : String) : Option String :=
  if (getAll fields name).isEmpty then none
  else some (foldValues (getAll fields name))

/-- mitmproxy Headers membership test (the Python in operator). -/
def hContains (fields : HeaderFields) (name : String) : Bool :=
  fields.any (fun p => keyMatch p.1 name)

/-- mitmproxy Headers delitem: removes every field whose name matches. -/
def hDel (fields : HeaderFields) (name : String) : HeaderFields :=
  fields.filter (fun p => !keyMatch p.1 name)

/-- mitmproxy Headers setitem, which is set_all with a single value: replace
the first matching field in place keeping its spelling, drop every later
matching field, append a fresh field when none matches. -/
def hSet : HeaderFields → String → String → HeaderFields
  | [], name, v => [(name, v)]
  | (k, w) :: rest, name, v =>
    if keyMatch k name then (k, v) :: hDel rest name
    else (k, w) :: hSet rest name v

/-- Distinct header names in first-occurrence order and spelling, deduplicated
case-insensitively; models iteration over a mitmproxy Headers object, which
keeps a seen set of case-folded names. -/
def distinctKeysAux : HeaderFields → List String → List String
  | [], _ => []
  | (k, _) :: rest, seen =>
    if seen.any (fun s => keyMatch s k) then distinctKeysAux rest seen
    else k :: distinctKeysAux rest (k :: seen)

/-- Distinct header names of a Headers object, first-occurrence order. -/
def distinctKeys (fields : HeaderFields) : List String := distinctKeysAux fields []

/-- Python dict applied to a mitmproxy Headers object (line 83 of the source):
one entry per distinct name, keyed by the first-seen spelling, valued by the
folding getter.  Duplicate occurrences of a name are folded into a single
comma-joined value, so this snapshot is lossy for multi-valued names. -/
def dictOfHeaders (fields : HeaderFields) : List (String × String) :=
  (distinctKeys fields).map (fun k => (k, foldValues (getAll fields k)))

/-- UTF-8 encoding of one character. -/
def utf8EncodeChar (c : Char) : List Nat :=
  let n := c.toNat
  if n < 0x80 then [n]
  else if n < 0x800 then [0xC0 + n / 0x40, 0x80 + n % 0x40]
  else if n < 0x10000 then
    [0xE0 + n / 0x1000, 0x80 + (n / 0x40) % 0x40, 0x80 + n % 0x40]
  else
    [0xF0 + n / 0x40000, 0x80 + (n / 0x1000) % 0x40,
     0x80 + (n / 0x40) % 0x40, 0x80 + n % 0x40]

/-- UTF-8 encoding of a string (Python str.encode with the utf-8 codec). -/
def utf8Encode (s : String) : List Nat :=
  s.data.foldr (fun c acc => utf8EncodeChar c ++ acc) []

/-- The Unicode replacement character U+FFFD. -/
def replacementChar : Char := Char.ofNat 0xFFFD

/-- Continuation-byte test for UTF-8 decoding. -/
def isCont (b : Nat) : Bool := decide (0x80 ≤ b) && decide (b < 0xC0)

/-- Scalar values that fit a Char: excludes surrogates and values past the
Unicode range. -/
def isScalar (n : Nat) : Bool :=
  decide (n < 0xD800) || (decide (0xE000 ≤ n) && decide (n ≤ 0x10FFFF))

/-- Total UTF-8 decoder with replacement: models Python bytes.decode with the
utf-8 codec and the replace error policy (source lines 143 and 149).  Invalid
or truncated sequences yield U+FFFD instead of an error, so decoding never
fails; the exact number of replacement characters per malformed run is
simplified relative to CPython, which no claim depends on.  The fuel argument
makes the byte-consuming loop structurally recursive; each step consumes at
least one byte, so fuel equal to the byte count is never exhausted. -/
def utf8DecodeReplaceAux : Nat → List Nat → List Char
  | 0, _ => []
  | _ + 1, [] => []
  | fuel + 1, b1 :: rest =>
    if b1 < 0x80 then Char.ofNat b1 :: utf8DecodeReplaceAux fuel rest
    else if 0xC2 ≤ b1 ∧ b1 ≤ 0xDF then
      match rest with
      | b2 :: rest2 =>
        if isCont b2 then
          Char.ofNat ((b1 - 0xC0) * 0x40 + (b2 - 0x80)) :: utf8DecodeReplaceAux fuel rest2
        else replacementChar :: utf8DecodeReplaceAux fuel (b2 :: rest2)
      | [] => [replacementChar]
    else if 0xE0 ≤ b1 ∧ b1 ≤ 0xEF then
      match rest with
      | b2 :: b3 :: rest3 =>
        if isCont b2 && isCont b3 &&
            isScalar ((b1 - 0xE0) * 0x1000 + (b2 - 0x80) * 0x40 + (b3 - 0x80)) then
          Char.ofNat ((b1 - 0xE0) * 0x1000 + (b2 - 0x80) * 0x40 + (b3 - 0x80)) ::
            utf8DecodeReplaceAux fuel rest3
        else replacementChar :: utf8DecodeReplaceAux fuel (b2 :: b3 :: rest3)
      | [b2] => replacementChar :: utf8DecodeReplaceAux fuel [b2]
      | [] => [replacementChar]
    else if 0xF0 ≤ b1 ∧ b1 ≤ 0xF4 then
      match rest with
      | b2 :: b3 :: b4 :: rest4 =>
        if isCont b2 && isCont b3 && isCont b4 &&
            isScalar ((b1 - 0xF0) * 0x40000 + (b2 - 0x80) * 0x1000 +
              (b3 - 0x80) * 0x40 + (b4 - 0x80)) then
          Char.ofNat ((b1 - 0xF0) * 0x40000 + (b2 - 0x80) * 0x1000 +
              (b3 - 0x80) * 0x40 + (b4 - 0x80)) :: utf8DecodeReplaceAux fuel rest4
        else replacementChar :: utf8DecodeReplaceAux fuel (b2 :: b3 :: b4 :: rest4)
      | [b2, b3] => replacementChar :: utf8DecodeReplaceAux fuel [b2, b3]
      | [b2] => replacementChar :: utf8DecodeReplaceAux fuel [b2]
      | [] => [replacementChar]
    else replacementChar :: utf8DecodeReplaceAux fuel rest

/-- Python bytes.decode with the utf-8 codec and errors set to replace. -/
def decodeUtf8Replace (bs : List Nat) : String :=
  String.mk (utf8DecodeReplaceAux bs.length bs)

/-- The fixed forward target (source line 6). -/
def FORWARD_URL : String := "http://localhost:9000/receive"

/-- An HTTP request as exposed by the proxy event source: method, URL, header
fields and body bytes. -/
structure Request where
  method : String
  url : String
  headers : HeaderFields
  body : List Nat
deriving DecidableEq

/-- An HTTP response: status code, header fields and body bytes. -/
structure Response where
  status_code : Nat
  headers : HeaderFields
  body : List Nat
deriving DecidableEq

/-- One in-flight exchange as exposed by the proxy event source: a stable id,
the mutable request, the response once produced, plus the intercept and
resume control state driven by flow.intercept and flow.resume. -/
structure Flow where
  id : String
  request : Request
  response : Option Response
  intercepted : Bool
  resumed : Bool
deriving DecidableEq

/-- The removed-headers record attached to one exchange: a Python dict from
header name to removed value. -/
abbrev RemovedHeaders := List (String × String)

/-- The process-wide stored_headers map (source line 10): flow id to removed
headers. -/
abbrev Store := List (String × RemovedHeaders)

/-- The Exchange Store consume operation: the membership check followed by
dict.pop that the response hook performs on stored_headers (source lines
112-115).  Atomically removes and returns the entry when present, otherwise
signals absence. -/
def takeIfPresent (store : Store) (fid : String) : Option RemovedHeaders × Store :=
  match dictGet store fid with
  | none => (none, store)
  | some rh => (some rh, dictRemove store fid)

/-- The serializer _serialize_headers_preserve (source lines 14-25): iterate
the fields with multi set, appending every pair to the ordered list and
assigning every pair into the last-write-wins dict. -/
def serializeHeadersPreserve (headersObj : HeaderFields) :
    List (String × String) × List (String × String) :=
  headersObj.foldl
    (fun acc kv => (acc.1 ++ [kv], dictInsert acc.2 kv.1 kv.2))
    ([], [])

/-- The outbound HTTP call issued by the connector worker (source lines
46-52): original method, fixed forward URL, the captured header snapshot and
the original body. -/
structure OutboundCall where
  method : String
  url : String
  headers : List (String × String)
  body : List Nat
deriving DecidableEq

/-- What the request hook does beyond mutating the flow and the store: either
spawn the connector worker with a captured outbound call, or fall through to
normal upstream forwarding. -/
inductive RequestAction where
  | connector (call : OutboundCall)
  | normal
deriving DecidableEq

/-- The request hook (source lines 79-101).  Takes the dict snapshot of the
request headers; when the snapshot carries x-source equal to
connector-service the flow is intercepted and the worker is spawned with the
snapshot; otherwise the correlation header x-request-id, when present, is
read, deleted from the request, and recorded in the store under the flow
id. -/
def requestHook (flow : Flow) (store : Store) : Flow × Store × RequestAction :=
  let headers := dictOfHeaders flow.request.headers
  if dictGet headers "x-source" = some "connector-service" then
    ({ flow with intercepted := true }, store,
     RequestAction.connector
       { method := flow.request.method
         url := FORWARD_URL
         headers := headers
         body := flow.request.body })
  else
    let rr : RemovedHeaders × HeaderFields :=
      if hContains flow.request.headers "x-request-id" then
        ([("x-request-id", (hGet flow.request.headers "x-request-id").getD "")],
         hDel flow.request.headers "x-request-id")
      else ([], flow.request.headers)
    let store' := if rr.1.isEmpty then store else dictInsert store flow.id rr.1
    ({ flow with request := { flow.request with headers := rr.2 } }, store',
     RequestAction.normal)

/-- The reply observed from the connector service when the outbound call
returns: status, body bytes, and the header dict, which is absent when
reading dict(svc_resp.headers) raised (source lines 53-56). -/
structure SvcResp where
  status_code : Nat
  content : List Nat
  headersOk : Option (List (String × String))
deriving DecidableEq

/-- Outcome of the try block of the connector worker: either the outbound
call returned a reply and the response was built from it, or some step inside
the try raised (timeout, connection error, or an error while building the
response); Python except catches every such exception with message e. -/
inductive CallOutcome where
  | success (svc : SvcResp)
  | raised (e : String)
deriving DecidableEq

/-- http.Response.make: build a response from status, body bytes and a header
list. -/
def responseMake (status : Nat) (content : List Nat)
    (headers : List (String × String)) : Response :=
  { status_code := status, headers := headers, body := content }

/-- The connector worker _handle_connector_service (source lines 43-75).  On
success the service reply is installed as the response, falling back to a
generic octet-stream content type when the reply headers could not be read;
on any exception a synthesized 502 plain-text response carrying the error
description is installed; the finally clause resumes the flow in every
case. -/
def handleConnectorService (flow : Flow) (outcome : CallOutcome) : Flow :=
  let flow' :=
    match outcome with
    | CallOutcome.success svc =>
      let svcHeaders :=
        match svc.headersOk with
        | some hs => hs
        | none => [("Content-Type", "application/octet-stream")]
      { flow with response := some (responseMake svc.status_code svc.content svcHeaders) }
    | CallOutcome.raised e =>
      { flow with response := some (responseMake 502
          (utf8Encode ("Error contacting connector service: " ++ e))
          [("Content-Type", "text/plain")]) }
  { flow' with intercepted := false, resumed := true }

/-- Client-bound response enrichment (source lines 117-120): when the removed
record carries x-request-id, write it back into the response headers, then
unconditionally add the marker header x-state with value response. -/
def enrichResponse (resp : Response) (removed : RemovedHeaders) : Response :=
  let h1 :=
    match dictGet removed "x-request-id" with
    | some r => hSet resp.headers "x-request-id" r
    | none => resp.headers
  { resp with headers := hSet h1 "x-state" "response" }

/-- Header reinstatement into a copy (source lines 127-129): assign every
removed pair back into the header fields. -/
def reinstate (headers : HeaderFields) (removed : RemovedHeaders) : HeaderFields :=
  removed.foldl (fun hs kv => hSet hs kv.1 kv.2) headers

/-- The request part of the enrichment report payload. -/
structure ReqPayload where
  method : String
  url : String
  headers_list : List (String × String)
  headers : List (String × String)
  body : String
deriving DecidableEq

/-- The response part of the enrichment report payload. -/
structure RespPayload where
  status_code : Nat
  headers_list : List (String × String)
  headers : List (String × String)
  body : String
deriving DecidableEq

/-- The enrichment report payload (source lines 136-151). -/
structure Payload where
  flow_id : String
  request : ReqPayload
  response : RespPayload
deriving DecidableEq

/-- Build the report payload (source lines 122-151): copy the mutated request
and response, reinstate every removed header into both copies, serialize both
header sets preserving duplicates, and assemble the payload with bodies
decoded through the replacing UTF-8 decoder. -/
def buildPayload (fid : String) (req : Request) (resp : Response)
    (removed : RemovedHeaders) : Payload :=
  let reqCopyHeaders := reinstate req.headers removed
  let respCopyHeaders := reinstate resp.headers removed
  let reqSer := serializeHeadersPreserve reqCopyHeaders
  let respSer := serializeHeadersPreserve respCopyHeaders
  { flow_id := fid
    request :=
      { method := req.method
        url := req.url
        headers_list := reqSer.1
        headers := reqSer.2
        body := decodeUtf8Replace req.body }
    response :=
      { status_code := resp.status_code
        headers_list := respSer.1
        headers := respSer.2
        body := decodeUtf8Replace resp.body } }

/-- What the response hook does beyond mutating the flow and the store:
return early because no entry was stored, schedule the asynchronous report
send with a built payload, or catch and log an exception raised inside the
try block, sending nothing. -/
inductive ResponseAction where
  | skipped
  | report (p : Payload)
  | buildFailed (e : String)
deriving DecidableEq

/-- The response hook (source lines 105-155).  Consume the stored entry for
the flow id, returning early when absent; enrich the client-bound response;
then build and schedule the report.  The buildExc parameter models an
exception raised inside the try block (for example get_content raising on an
undecodable content encoding): such an exception is caught and logged, the
report is not sent, and the already-applied client-bound mutations stand. -/
def responseHook (flow : Flow) (store : Store) (buildExc : Option String) :
    Flow × Store × ResponseAction :=
  match takeIfPresent store flow.id with
  | (none, _) => (flow, store, ResponseAction.skipped)
  | (some removed, store') =>
    let resp := flow.response.getD { status_code := 0, headers := [], body := [] }
    let resp' := enrichResponse resp removed
    let flow' := { flow with response := some resp' }
    match buildExc with
    | some e => (flow', store', ResponseAction.buildFailed e)
    | none =>
      (flow', store',
       ResponseAction.report (buildPayload flow.id flow.request resp' removed))

/-- Second definition, following the words of the spec rather than the
source, for comparison: a last-write-wins snapshot of the header fields, in
which a later occurrence of a name overwrites an earlier one. -/
def lastWinSnapshot (fields : HeaderFields) : List (String × String) :=
  fields.foldl (fun d kv => dictInsert d kv.1 kv.2) []

/-! Basic lemmas about the header-object and dict operations. -/

theorem keyMatch_true_iff {a b : String} : keyMatch a b = true ↔ lowerStr a = lowerStr b := by
  simp [keyMatch]

theorem keyMatch_false_iff {a b : String} : keyMatch a b = false ↔ ¬ lowerStr a = lowerStr b := by
  simp [keyMatch]

theorem keyMatch_refl (a : String) : keyMatch a a = true := by
  simp [keyMatch]

theorem getAll_congr {k n : String} (fields : HeaderFields) (h : lowerStr k = lowerStr n) :
    getAll fields k = getAll fields n := by
  unfold getAll
  congr 1
  apply List.filter_congr
  intro p _
  simp [keyMatch, h]

theorem getAll_cons (k w : String) (rest : HeaderFields) (name : String) :
    getAll ((k, w) :: rest) name =
      if keyMatch k name then w :: getAll rest name else getAll rest name := by
  by_cases h : keyMatch k name = true
  · simp [getAll, List.filter_cons, h]
  · simp only [Bool.not_eq_true] at h
    simp [getAll, List.filter_cons, h]

theorem hContains_eq_not_isEmpty (fields : HeaderFields) (name : String) :
    hContains fields name = !(getAll fields name).isEmpty := by
  induction fields with
  | nil => rfl
  | cons p rest ih =>
    by_cases h : keyMatch p.1 name = true
    · simp [hContains, getAll, List.filter_cons, h]
    · simp only [Bool.not_eq_true] at h
      simp only [hContains, getAll, List.filter_cons, h, List.any_cons, Bool.false_or,
        cond_false] at *
      exact ih

theorem hGet_of_contains {fields : HeaderFields} {name : String}
    (h : hContains fields name = true) :
    hGet fields name = some (foldValues (getAll fields name)) := by
  rw [hContains_eq_not_isEmpty] at h
  unfold hGet
  cases hh : (getAll fields name).isEmpty with
  | true => rw [hh] at h; simp at h
  | false => simp [hh]

theorem contains_of_hGet {fields : HeaderFields} {name R : String}
    (h : hGet fields name = some R) : hContains fields name = true := by
  rw [hContains_eq_not_isEmpty]
  unfold hGet at h
  cases hh : (getAll fields name).isEmpty with
  | true => rw [hh] at h; simp at h
  | false => simp [hh]

theorem hGet_eq_none_of_not_contains {fields : HeaderFields} {name : String}
    (h : hContains fields name = false) : hGet fields name = none := by
  rw [hContains_eq_not_isEmpty] at h
  unfold hGet
  cases hh : (getAll fields name).isEmpty with
  | true => simp [hh]
  | false => rw [hh] at h; simp at h

theorem getAll_hDel_self (fields : HeaderFields) (name : String) :
    getAll (hDel fields name) name = [] := by
  induction fields with
  | nil => rfl
  | cons p rest ih =>
    by_cases h : keyMatch p.1 name = true
    · simp only [hDel, List.filter_cons, h, Bool.not_true, cond_false]
      exact ih
    · simp only [Bool.not_eq_true] at h
      simp [hDel, getAll, List.filter_cons, h]

theorem hContains_hDel (fields : HeaderFields) (name : String) :
    hContains (hDel fields name) name = false := by
  rw [hContains_eq_not_isEmpty, getAll_hDel_self]
  rfl

theorem getAll_hDel_other {m n : String} (fields : HeaderFields)
    (h : ¬ lowerStr m = lowerStr n) :
    getAll (hDel fields m) n = getAll fields n := by
  induction fields with
  | nil => rfl
  | cons p rest ih =>
    by_cases hm : keyMatch p.1 m = true
    · have hn : keyMatch p.1 n = false := by
        rw [keyMatch_false_iff]
        rw [keyMatch_true_iff] at hm
        exact fun hh => h (hm ▸ hh)
      simp only [Bool.not_eq_true] at hn
      simpa [hDel, getAll, List.filter_cons, hm, hn] using ih
    · simp only [Bool.not_eq_true] at hm
      by_cases hn : keyMatch p.1 n = true
      · simpa [hDel, getAll, List.filter_cons, hm, hn] using ih
      · simp only [Bool.not_eq_true] at hn
        simpa [hDel, getAll, List.filter_cons, hm, hn] using ih

theorem getAll_hSet_self (fields : HeaderFields) (name v : String) :
    getAll (hSet fields name v) name = [v] := by
  induction fields with
  | nil => simp [hSet, getAll_cons, keyMatch_refl, getAll]
  | cons p rest ih =>
    obtain ⟨k, w⟩ := p
    by_cases h : keyMatch k name = true
    · have e1 : hSet ((k, w) :: rest) name v = (k, v) :: hDel rest name := by
        simp [hSet, h]
      rw [e1, getAll_cons, if_pos h, getAll_hDel_self]
    · simp only [Bool.not_eq_true] at h
      have e1 : hSet ((k, w) :: rest) name v = (k, w) :: hSet rest name v := by
        simp [hSet, h]
      rw [e1, getAll_cons, if_neg (by simp [h]), ih]

theorem getAll_hSet_other {m n : String} (fields : HeaderFields) (v : String)
    (h : ¬ lowerStr m = lowerStr n) :
    getAll (hSet fields m v) n = getAll fields n := by
  have hmn : keyMatch m n = false := by rw [keyMatch_false_iff]; exact h
  induction fields with
  | nil =>
    simp only [hSet]
    rw [getAll_cons, if_neg (by simp [hmn])]
  | cons p rest ih =>
    obtain ⟨k, w⟩ := p
    by_cases hm : keyMatch k m = true
    · have hn : keyMatch k n = false := by
        rw [keyMatch_false_iff]
        rw [keyMatch_true_iff] at hm
        exact fun hh => h (hm ▸ hh)
      have e1 : hSet ((k, w) :: rest) m v = (k, v) :: hDel rest m := by
        simp [hSet, hm]
      rw [e1, getAll_cons, if_neg (by simp [hn]), getAll_cons, if_neg (by simp [hn])]
      exact getAll_hDel_other rest h
    · simp only [Bool.not_eq_true] at hm
      have e1 : hSet ((k, w) :: rest) m v = (k, w) :: hSet rest m v := by
        simp [hSet, hm]
      rw [e1, getAll_cons, getAll_cons, ih]

theorem hGet_hSet_self (fields : HeaderFields) (name v : String) :
    hGet (hSet fields name v) name = some v := by
  simp [hGet, getAll_hSet_self, foldValues]

theorem hGet_hSet_other {m n : String} (fields : HeaderFields) (v : String)
    (h : ¬ lowerStr m = lowerStr n) :
    hGet (hSet fields m v) n = hGet fields n := by
  simp [hGet, getAll_hSet_other fields v h]

theorem dictGet_dictInsert {α : Type} (d : List (String × α)) (key k2 : String) (v : α) :
    dictGet (dictInsert d key v) k2 = if key = k2 then some v else dictGet d k2 := by
  induction d with
  | nil => simp [dictInsert, dictGet]
  | cons p rest ih =>
    obtain ⟨k, w⟩ := p
    by_cases h1 : k = key
    · subst h1
      by_cases h2 : k = k2 <;> simp [dictInsert, dictGet, h2]
    · by_cases h2 : k = k2
      · subst h2
        have hk : ¬ key = k := fun hh => h1 hh.symm
        simp [dictInsert, dictGet, h1, hk]
      · simp [dictInsert, dictGet, h1, h2, ih]

theorem dictGet_dictRemove_self {α : Type} (d : List (String × α)) (key : String) :
    dictGet (dictRemove d key) key = none := by
  induction d with
  | nil => rfl
  | cons p rest ih =>
    obtain ⟨k, w⟩ := p
    by_cases h : k = key
    · simpa [dictRemove, List.filter_cons, h] using ih
    · simpa [dictRemove, dictGet, List.filter_cons, h] using ih

/-! Lemmas about the header serializer. -/

theorem serializeAux_fst (fields : HeaderFields)
    (acc : List (String × String) × List (String × String)) :
    (fields.foldl (fun acc kv => (acc.1 ++ [kv], dictInsert acc.2 kv.1 kv.2)) acc).1 =
      acc.1 ++ fields := by
  induction fields generalizing acc with
  | nil => simp
  | cons kv rest ih => simp [List.foldl_cons, ih]

theorem serialize_fst (fields : HeaderFields) :
    (serializeHeadersPreserve fields).1 = fields := by
  simpa [serializeHeadersPreserve] using serializeAux_fst fields ([], [])

theorem find_app {α : Type} (l1 l2 : List α) (p : α → Bool) :
    (l1 ++ l2).find? p =
      match l1.find? p with
      | some a => some a
      | none => l2.find? p := by
  induction l1 with
  | nil => simp
  | cons x xs ih =>
    by_cases h : p x = true
    · simp [List.find?_cons, h]
    · simp only [Bool.not_eq_true] at h
      simp [List.find?_cons, h, ih]

theorem serializeAux_snd (fields : HeaderFields)
    (acc : List (String × String) × List (String × String)) (name : String) :
    dictGet (fields.foldl (fun acc kv => (acc.1 ++ [kv], dictInsert acc.2 kv.1 kv.2)) acc).2
        name =
      match fields.reverse.find? (fun p => decide (p.1 = name)) with
      | some p => some p.2
      | none => dictGet acc.2 name := by
  induction fields generalizing acc with
  | nil => simp
  | cons kv rest ih =>
    rw [List.foldl_cons, ih, List.reverse_cons, find_app]
    cases hfind : rest.reverse.find? (fun p => decide (p.1 = name)) with
    | some p => simp
    | none =>
      by_cases h : kv.1 = name
      · simp [List.find?_cons, h, dictGet_dictInsert]
      · simp [List.find?_cons, h, dictGet_dictInsert]

theorem serialize_snd (fields : HeaderFields) (name : String) :
    dictGet (serializeHeadersPreserve fields).2 name =
      (fields.reverse.find? (fun p => decide (p.1 = name))).map Prod.snd := by
  rw [serializeHeadersPreserve, serializeAux_snd]
  cases hfind : fields.reverse.find? (fun p => decide (p.1 = name)) <;> simp [dictGet]

/-! Lemmas about the dict snapshot of a Headers object. -/

theorem distinctKeysAux_filter (fields : HeaderFields) (seen : List String) (name : String) :
    (distinctKeysAux fields seen).filter (fun k => keyMatch k name) =
      if seen.any (fun s => keyMatch s name) then []
      else
        match fields.find? (fun p => keyMatch p.1 name) with
        | some p => [p.1]
        | none => [] := by
  induction fields generalizing seen with
  | nil =>
    simp only [distinctKeysAux, List.filter_nil, List.find?_nil]
    cases h : seen.any (fun s => keyMatch s name) <;> simp
  | cons p rest ih =>
    obtain ⟨k, w⟩ := p
    by_cases hsk : seen.any (fun s => keyMatch s k) = true
    · have e1 : distinctKeysAux ((k, w) :: rest) seen = distinctKeysAux rest seen := by
        simp [distinctKeysAux, hsk]
      rw [e1, ih]
      by_cases hkn : keyMatch k name = true
      · have hsn : seen.any (fun s => keyMatch s name) = true := by
          rw [List.any_eq_true] at hsk ⊢
          obtain ⟨s, hs, hmatch⟩ := hsk
          refine ⟨s, hs, ?_⟩
          rw [keyMatch_true_iff] at hmatch hkn ⊢
          exact hmatch.trans hkn
        simp [hsn]
      · simp only [Bool.not_eq_true] at hkn
        simp [List.find?_cons, hkn]
    · have e1 : distinctKeysAux ((k, w) :: rest) seen = k :: distinctKeysAux rest (k :: seen) := by
        simp [distinctKeysAux, hsk]
      rw [e1, List.filter_cons]
      by_cases hkn : keyMatch k name = true
      · have hsn : seen.any (fun s => keyMatch s name) = false := by
          cases hh : seen.any (fun s => keyMatch s name) with
          | false => rfl
          | true =>
            exfalso
            rw [List.any_eq_true] at hh
            obtain ⟨s, hs, hmatch⟩ := hh
            refine hsk (List.any_eq_true.mpr ⟨s, hs, ?_⟩)
            rw [keyMatch_true_iff] at hmatch hkn ⊢
            exact hmatch.trans hkn.symm
        rw [if_pos hkn, ih (k :: seen)]
        have hkseen : (k :: seen).any (fun s => keyMatch s name) = true := by
          rw [List.any_eq_true]
          exact ⟨k, by simp, hkn⟩
        rw [hkseen]
        simp [hsn, List.find?_cons, hkn]
      · simp only [Bool.not_eq_true] at hkn
        rw [if_neg (by simp [hkn]), ih (k :: seen)]
        have e2 : (k :: seen).any (fun s => keyMatch s name) =
            seen.any (fun s => keyMatch s name) := by
          simp [List.any_cons, hkn]
        rw [e2]
        simp [List.find?_cons, hkn]

theorem getAll_map_pairs (l : List String) (f : String → String) (name : String) :
    getAll (l.map fun k => (k, f k)) name = (l.filter fun k => keyMatch k name).map f := by
  induction l with
  | nil => rfl
  | cons k rest ih =>
    rw [List.map_cons, getAll_cons, List.filter_cons]
    by_cases h : keyMatch k name = true
    · rw [if_pos h, if_pos h, List.map_cons, ih]
    · simp only [Bool.not_eq_true] at h
      rw [if_neg (by simp [h]), if_neg (by simp [h]), ih]

/-- The dict snapshot of a Headers object, read back as a header collection:
a name present in the original fields appears exactly once, carrying the
comma-folded join of all its original values; an absent name stays absent. -/
theorem getAll_dictOfHeaders (fields : HeaderFields) (name : String) :
    getAll (dictOfHeaders fields) name =
      if hContains fields name then [foldValues (getAll fields name)] else [] := by
  unfold dictOfHeaders distinctKeys
  rw [getAll_map_pairs, distinctKeysAux_filter]
  simp only [List.any_nil, Bool.false_eq_true, if_false]
  cases hfind : fields.find? (fun p => keyMatch p.1 name) with
  | none =>
    have hc : hContains fields name = false := by
      rw [List.find?_eq_none] at hfind
      cases hh : hContains fields name with
      | false => rfl
      | true =>
        exfalso
        rw [hContains, List.any_eq_true] at hh
        obtain ⟨p, hp, hmatch⟩ := hh
        exact hfind p hp hmatch
    simp [hc]
  | some p =>
    have hp := List.find?_some hfind
    have hc : hContains fields name = true := by
      rw [hContains, List.any_eq_true]
      exact ⟨p, List.mem_of_find?_eq_some hfind, hp⟩
    rw [hc]
    simp only [List.map_cons, List.map_nil, if_true]
    rw [getAll_congr fields (keyMatch_true_iff.mp hp)]

/-! Characterization of the two hooks, branch by branch. -/

theorem requestHook_connector (flow : Flow) (store : Store)
    (h : dictGet (dictOfHeaders flow.request.headers) "x-source" = some "connector-service") :
    requestHook flow store =
      ({ flow with intercepted := true }, store,
       RequestAction.connector
         { method := flow.request.method
           url := FORWARD_URL
           headers := dictOfHeaders flow.request.headers
           body := flow.request.body }) := by
  simp [requestHook, h]

theorem requestHook_normal_removed (flow : Flow) (store : Store) (R : String)
    (h : ¬ dictGet (dictOfHeaders flow.request.headers) "x-source" = some "connector-service")
    (hR : hGet flow.request.headers "x-request-id" = some R) :
    requestHook flow store =
      ({ flow with request :=
          { flow.request with headers := hDel flow.request.headers "x-request-id" } },
       dictInsert store flow.id [("x-request-id", R)],
       RequestAction.normal) := by
  have hc : hContains flow.request.headers "x-request-id" = true := contains_of_hGet hR
  simp [requestHook, h, hc, hR]

theorem requestHook_normal_plain (flow : Flow) (store : Store)
    (h : ¬ dictGet (dictOfHeaders flow.request.headers) "x-source" = some "connector-service")
    (hc : hContains flow.request.headers "x-request-id" = false) :
    requestHook flow store = (flow, store, RequestAction.normal) := by
  simp [requestHook, h, hc]

theorem responseHook_skip (flow : Flow) (store : Store) (bex : Option String)
    (h : dictGet store flow.id = none) :
    responseHook flow store bex = (flow, store, ResponseAction.skipped) := by
  simp [responseHook, takeIfPresent, h]

theorem responseHook_entry (flow : Flow) (store : Store) (bex : Option String)
    (removed : RemovedHeaders) (resp : Response)
    (h : dictGet store flow.id = some removed) (hresp : flow.response = some resp) :
    responseHook flow store bex =
      ({ flow with response := some (enrichResponse resp removed) },
       dictRemove store flow.id,
       match bex with
       | some e => ResponseAction.buildFailed e
       | none => ResponseAction.report
           (buildPayload flow.id flow.request (enrichResponse resp removed) removed)) := by
  cases bex <;> simp [responseHook, takeIfPresent, h, hresp]

/-- Enriching with the singleton removed record stored by the request hook:
restore the correlation value, then add the marker header. -/
theorem enrichResponse_single (resp : Response) (R : String) :
    enrichResponse resp [("x-request-id", R)] =
      { resp with
        headers := hSet (hSet resp.headers "x-request-id" R) "x-state" "response" } := by
  simp [enrichResponse, dictGet]

theorem hGet_enriched_request_id (hs : HeaderFields) (R : String) :
    hGet (hSet (hSet hs "x-request-id" R) "x-state" "response") "x-request-id" = some R := by
  rw [hGet_hSet_other _ _ (by decide), hGet_hSet_self]

theorem hGet_enriched_state (hs : HeaderFields) (R : String) :
    hGet (hSet (hSet hs "x-request-id" R) "x-state" "response") "x-state" =
      some "response" := by
  rw [hGet_hSet_self]

/-- Variant of the entry characterization that does not name the attached
response: the hook reads it through getD, mirroring that the event source
always attaches a response before the hook fires. -/
theorem responseHook_entry0 (flow : Flow) (store : Store) (bex : Option String)
    (removed : RemovedHeaders) (h : dictGet store flow.id = some removed) :
    responseHook flow store bex =
      ({ flow with response := some (enrichResponse
           (flow.response.getD { status_code := 0, headers := [], body := [] }) removed) },
       dictRemove store flow.id,
       match bex with
       | some e => ResponseAction.buildFailed e
       | none => ResponseAction.report (buildPayload flow.id flow.request
           (enrichResponse
             (flow.response.getD { status_code := 0, headers := [], body := [] }) removed)
           removed)) := by
  cases bex <;> simp [responseHook, takeIfPresent, h]

theorem utf8Encode_foldr (l : List Char) (x : List Nat) :
    l.foldr (fun c acc => utf8EncodeChar c ++ acc) x =
      l.foldr (fun c acc => utf8EncodeChar c ++ acc) [] ++ x := by
  induction l with
  | nil => simp
  | cons c rest ih => simp [ih, List.append_assoc]

theorem utf8Encode_append (a b : String) :
    utf8Encode (a ++ b) = utf8Encode a ++ utf8Encode b := by
  rcases a with ⟨la⟩
  rcases b with ⟨lb⟩
  show utf8Encode (String.mk (la ++ lb)) = _
  unfold utf8Encode
  rw [List.foldr_append]
  exact utf8Encode_foldr la _

/-! Concrete fixtures used by witness and counterexample instances. -/

/-- A concrete normal-path flow carrying the correlation header. -/
def flowNormal : Flow :=
  { id := "flow-1"
    request := { method := "GET", url := "http://origin/a",
                 headers := [("host", "origin"), ("x-request-id", "abc123")], body := [] }
    response := none
    intercepted := false
    resumed := false }

/-- A concrete origin response. -/
def respOrigin : Response :=
  { status_code := 200, headers := [("server", "s1")], body := [] }

/-- A concrete normal-path flow with no correlation header. -/
def flowPlain : Flow :=
  { id := "flow-2"
    request := { method := "GET", url := "http://origin/b",
                 headers := [("host", "origin")], body := [] }
    response := none
    intercepted := false
    resumed := false }

/-- A concrete connector-path flow whose request has a duplicated header. -/
def flowConnectorDup : Flow :=
  { id := "flow-3"
    request := { method := "POST", url := "http://origin/c",
                 headers := [("x-source", "connector-service"), ("accept", "a"), ("accept", "b")],
                 body := [] }
    response := none
    intercepted := false
    resumed := false }

/-- The outbound call that the request hook captures for flowConnectorDup. -/
def callConnectorDup : OutboundCall :=
  { method := "POST", url := FORWARD_URL,
    headers := [("x-source", "connector-service"), ("accept", "a, b")], body := [] }

/-- A concrete flow with two x-source fields whose folded value is not the
sentinel even though the later occurrence alone is. -/
def flowDupSource : Flow :=
  { id := "flow-4"
    request := { method := "GET", url := "http://origin/d",
                 headers := [("x-source", "other"), ("x-source", "connector-service")],
                 body := [] }
    response := none
    intercepted := false
    resumed := false }

/-! Claim theorems. -/

/-- C1: for every normal-path exchange whose inbound request carries the
correlation header x-request-id with value R, the request hook removes
x-request-id from the request before it is forwarded upstream, and the
response hook writes x-request-id back with the same value R into the
client-bound response and additionally adds the marker header x-state with
value response. -/
theorem normal_path_restores_correlation_header
    (flow : Flow) (store : Store) (resp : Response) (R : String) (bex : Option String)
    (hnc : ¬ dictGet (dictOfHeaders flow.request.headers) "x-source" = some "connector-service")
    (hR : hGet flow.request.headers "x-request-id" = some R) :
    hContains (requestHook flow store).1.request.headers "x-request-id" = false
  ∧ ∃ r, (responseHook { (requestHook flow store).1 with response := some resp }
              (requestHook flow store).2.1 bex).1.response = some r
      ∧ hGet r.headers "x-request-id" = some R
      ∧ hGet r.headers "x-state" = some "response" := by
  have hreq := requestHook_normal_removed flow store R hnc hR
  constructor
  · rw [hreq]
    exact hContains_hDel _ _
  · rw [hreq]
    rw [responseHook_entry _ _ bex [("x-request-id", R)] resp
      (by simp [dictGet_dictInsert]) rfl]
    refine ⟨enrichResponse resp [("x-request-id", R)], rfl, ?_, ?_⟩
    · rw [enrichResponse_single]
      exact hGet_enriched_request_id _ _
    · rw [enrichResponse_single]
      exact hGet_enriched_state _ _

theorem normal_path_restores_correlation_header_witness :
    hContains (requestHook flowNormal []).1.request.headers "x-request-id" = false
  ∧ ∃ r, (responseHook { (requestHook flowNormal []).1 with response := some respOrigin }
              (requestHook flowNormal []).2.1 none).1.response = some r
      ∧ hGet r.headers "x-request-id" = some "abc123"
      ∧ hGet r.headers "x-state" = some "response" :=
  normal_path_restores_correlation_header flowNormal [] respOrigin "abc123" none
    (by decide) (by decide)

/-- C2: for every connector-path exchange, if the outbound call fails for any
reason (the try block raised with message e), the installed response has
status 502, content type text/plain and a plain-text body containing the
error description; and for every outcome, success or failure, the flow is
resumed, so the client is never left with a paused exchange. -/
theorem connector_failure_502_and_always_resumed
    (flow : Flow) (outcome : CallOutcome) (e : String) :
    (handleConnectorService flow outcome).resumed = true
  ∧ ∃ r, (handleConnectorService flow (CallOutcome.raised e)).response = some r
      ∧ r.status_code = 502
      ∧ hGet r.headers "Content-Type" = some "text/plain"
      ∧ r.body = utf8Encode ("Error contacting connector service: " ++ e)
      ∧ utf8Encode e <:+ r.body := by
  constructor
  · cases outcome <;> rfl
  · refine ⟨_, rfl, rfl, ?_, rfl, ?_⟩
    · show hGet [("Content-Type", "text/plain")] "Content-Type" = some "text/plain"
      decide
    · exact ⟨utf8Encode "Error contacting connector service: ", (utf8Encode_append _ _).symm⟩

/-- C3 counterexample: the header snapshot forwarded to the connector target
does not preserve duplicate occurrences.  For a request carrying two accept
fields, the captured snapshot carries a single folded accept entry, so the
forwarded headers are not the original fields. -/
theorem connector_forward_duplicate_loss_cex :
    (requestHook flowConnectorDup []).2.2 = RequestAction.connector callConnectorDup
  ∧ (flowConnectorDup.request.headers.filter (fun p => keyMatch p.1 "accept")).length = 2
  ∧ (callConnectorDup.headers.filter (fun p => keyMatch p.1 "accept")).length = 1 := by
  decide

/-- C3 amended: the connector-path outbound call forwards the original method
and body unchanged to the forward URL, and forwards the dict snapshot of the
request headers: every original header name is present exactly once, valued
by the comma-folded join of all its original values; duplicate occurrences
are folded into that single value rather than preserved as separate pairs. -/
theorem connector_forward_folded_snapshot
    (flow : Flow) (store : Store) (call : OutboundCall)
    (h : (requestHook flow store).2.2 = RequestAction.connector call) :
    call.method = flow.request.method
  ∧ call.url = FORWARD_URL
  ∧ call.body = flow.request.body
  ∧ ∀ name, getAll call.headers name =
      (if hContains flow.request.headers name
       then [foldValues (getAll flow.request.headers name)] else []) := by
  by_cases hc : dictGet (dictOfHeaders flow.request.headers) "x-source" = some "connector-service"
  · rw [requestHook_connector flow store hc] at h
    simp only [RequestAction.connector.injEq] at h
    subst h
    exact ⟨rfl, rfl, rfl, fun name => getAll_dictOfHeaders flow.request.headers name⟩
  · exfalso
    simp [requestHook, hc] at h

theorem connector_forward_folded_snapshot_witness :
    getAll callConnectorDup.headers "accept" =
      (if hContains flowConnectorDup.request.headers "accept"
       then [foldValues (getAll flowConnectorDup.request.headers "accept")] else []) :=
  (connector_forward_folded_snapshot flowConnectorDup [] callConnectorDup (by decide)).2.2.2
    "accept"

/-- C4: serialization returns the ordered sequence of all pairs exactly as
stored, preserving order and duplicates; the last-write-wins map sends every
name to the value of its last occurrence (the first match in the reversed
sequence, absent names map to none); the empty collection yields the empty
sequence and the empty map.  The serializer is a pure function, so there is
no error condition and no side effect. -/
theorem serialize_headers_preserve_spec (fields : HeaderFields) :
    (serializeHeadersPreserve fields).1 = fields
  ∧ (∀ name, dictGet (serializeHeadersPreserve fields).2 name =
        (fields.reverse.find? (fun p => decide (p.1 = name))).map Prod.snd)
  ∧ serializeHeadersPreserve ([] : HeaderFields) = ([], []) :=
  ⟨serialize_fst fields, fun name => serialize_snd fields name, rfl⟩

/-- C5: an exception raised while building the report payload is caught by
the response hook: the run with a raised build exception produces exactly the
same flow and the same store as the non-failing run, so the client-bound
response is unaffected, and the failing run schedules no report. -/
theorem payload_failure_leaves_client_response
    (flow : Flow) (store : Store) (e : String) :
    (responseHook flow store (some e)).1 = (responseHook flow store none).1
  ∧ (responseHook flow store (some e)).2.1 = (responseHook flow store none).2.1
  ∧ ((responseHook flow store (some e)).2.2 = ResponseAction.skipped
     ∨ (responseHook flow store (some e)).2.2 = ResponseAction.buildFailed e) := by
  cases h : dictGet store flow.id with
  | none =>
    rw [responseHook_skip flow store (some e) h, responseHook_skip flow store none h]
    exact ⟨rfl, rfl, Or.inl rfl⟩
  | some removed =>
    rw [responseHook_entry0 flow store (some e) removed h,
        responseHook_entry0 flow store none removed h]
    exact ⟨rfl, rfl, Or.inr rfl⟩

/-- C6 counterexample: for a request with two x-source fields valued other
and connector-service, the last-write-wins snapshot maps x-source to the
sentinel connector-service, yet the code dispatches the normal path, because
the dict snapshot it actually consults folds the duplicates into the
non-sentinel value other, connector-service. -/
theorem classification_not_last_write_wins_cex :
    dictGet (lastWinSnapshot flowDupSource.request.headers) "x-source" =
      some "connector-service"
  ∧ (requestHook flowDupSource []).2.2 = RequestAction.normal := by
  decide

/-- C6 amended: exactly one of the two paths runs per request.  The dispatch
condition is that the dict snapshot of the request headers (which folds
duplicate values, rather than a last-write-wins map) carries x-source with
value connector-service: when it holds the connector path is dispatched and
no normal-path processing happens (the request and the store are untouched);
otherwise the normal path runs and the connector delegation never does. -/
theorem classification_exactly_one_path (flow : Flow) (store : Store) :
    if dictGet (dictOfHeaders flow.request.headers) "x-source" = some "connector-service" then
      (∃ call, (requestHook flow store).2.2 = RequestAction.connector call)
      ∧ (requestHook flow store).1.request = flow.request
      ∧ (requestHook flow store).2.1 = store
    else (requestHook flow store).2.2 = RequestAction.normal := by
  by_cases hc : dictGet (dictOfHeaders flow.request.headers) "x-source" = some "connector-service"
  · rw [if_pos hc, requestHook_connector flow store hc]
    exact ⟨⟨_, rfl⟩, rfl, rfl⟩
  · rw [if_neg hc]
    simp [requestHook, hc]

/-- C7: for every enriched normal-path exchange, the report payload has
exactly the shape flow_id, request (method, url, headers_list, headers,
body), response (status_code, headers_list, headers, body); the removed
header set is reinstated into both the request copy and the response copy
before serialization, so both serialized header lists carry x-request-id
with the stored value; and both bodies are decoded by the total replacing
UTF-8 decoder, so decoding never fails the report. -/
theorem report_payload_shape_and_reinstated
    (flow : Flow) (store : Store) (resp : Response) (R : String)
    (hnc : ¬ dictGet (dictOfHeaders flow.request.headers) "x-source" = some "connector-service")
    (hR : hGet flow.request.headers "x-request-id" = some R) :
    ∃ p, (responseHook { (requestHook flow store).1 with response := some resp }
              (requestHook flow store).2.1 none).2.2 = ResponseAction.report p
      ∧ p.flow_id = flow.id
      ∧ p.request.method = flow.request.method
      ∧ p.request.url = flow.request.url
      ∧ p.request.body = decodeUtf8Replace flow.request.body
      ∧ p.response.status_code = resp.status_code
      ∧ p.response.body = decodeUtf8Replace resp.body
      ∧ p.request.headers_list =
          reinstate (hDel flow.request.headers "x-request-id") [("x-request-id", R)]
      ∧ p.request.headers =
          (serializeHeadersPreserve (reinstate (hDel flow.request.headers "x-request-id")
            [("x-request-id", R)])).2
      ∧ p.response.headers_list =
          reinstate (enrichResponse resp [("x-request-id", R)]).headers [("x-request-id", R)]
      ∧ p.response.headers =
          (serializeHeadersPreserve (reinstate (enrichResponse resp [("x-request-id", R)]).headers
            [("x-request-id", R)])).2
      ∧ hGet p.request.headers_list "x-request-id" = some R
      ∧ hGet p.response.headers_list "x-request-id" = some R := by
  rw [requestHook_normal_removed flow store R hnc hR]
  rw [responseHook_entry _ _ none [("x-request-id", R)] resp
    (by simp [dictGet_dictInsert]) rfl]
  refine ⟨_, rfl, rfl, rfl, rfl, rfl, rfl, rfl, serialize_fst _, rfl, serialize_fst _, rfl,
    ?_, ?_⟩
  · show hGet (serializeHeadersPreserve (reinstate (hDel flow.request.headers "x-request-id")
      [("x-request-id", R)])).1 "x-request-id" = some R
    rw [serialize_fst]
    exact hGet_hSet_self _ _ _
  · show hGet (serializeHeadersPreserve
      (reinstate (enrichResponse resp [("x-request-id", R)]).headers
        [("x-request-id", R)])).1 "x-request-id" = some R
    rw [serialize_fst, enrichResponse_single]
    exact hGet_hSet_self _ _ _

theorem report_payload_shape_and_reinstated_witness :
    ∃ p, (responseHook { (requestHook flowNormal []).1 with response := some respOrigin }
              (requestHook flowNormal []).2.1 none).2.2 = ResponseAction.report p
      ∧ p.flow_id = flowNormal.id
      ∧ p.request.method = flowNormal.request.method
      ∧ p.request.url = flowNormal.request.url
      ∧ p.request.body = decodeUtf8Replace flowNormal.request.body
      ∧ p.response.status_code = respOrigin.status_code
      ∧ p.response.body = decodeUtf8Replace respOrigin.body
      ∧ p.request.headers_list =
          reinstate (hDel flowNormal.request.headers "x-request-id")
            [("x-request-id", "abc123")]
      ∧ p.request.headers =
          (serializeHeadersPreserve (reinstate (hDel flowNormal.request.headers "x-request-id")
            [("x-request-id", "abc123")])).2
      ∧ p.response.headers_list =
          reinstate (enrichResponse respOrigin [("x-request-id", "abc123")]).headers
            [("x-request-id", "abc123")]
      ∧ p.response.headers =
          (serializeHeadersPreserve
            (reinstate (enrichResponse respOrigin [("x-request-id", "abc123")]).headers
              [("x-request-id", "abc123")])).2
      ∧ hGet p.request.headers_list "x-request-id" = some "abc123"
      ∧ hGet p.response.headers_list "x-request-id" = some "abc123" :=
  report_payload_shape_and_reinstated flowNormal [] respOrigin "abc123"
    (by decide) (by decide)

/-- C8: for every fresh normal-path exchange whose inbound request has no
x-request-id header, the request hook leaves the flow and the store
untouched, and the response hook stops without enrichment: the client-bound
response is exactly the origin response, no store entry exists, and no
report is sent. -/
theorem no_correlation_no_entry_no_report
    (flow : Flow) (store : Store) (resp : Response) (bex : Option String)
    (hnc : ¬ dictGet (dictOfHeaders flow.request.headers) "x-source" = some "connector-service")
    (hno : hContains flow.request.headers "x-request-id" = false)
    (hfresh : dictGet store flow.id = none) :
    requestHook flow store = (flow, store, RequestAction.normal)
  ∧ responseHook { flow with response := some resp } store bex =
      ({ flow with response := some resp }, store, ResponseAction.skipped) :=
  ⟨requestHook_normal_plain flow store hnc hno,
   responseHook_skip _ _ _ hfresh⟩

theorem no_correlation_no_entry_no_report_witness :
    requestHook flowPlain [] = (flowPlain, [], RequestAction.normal)
  ∧ responseHook { flowPlain with response := some respOrigin } [] none =
      ({ flowPlain with response := some respOrigin }, [], ResponseAction.skipped) :=
  no_correlation_no_entry_no_report flowPlain [] respOrigin none
    (by decide) (by decide) (by decide)

/-- C9: consuming the store entry for an id with no stored entry signals
absence without an error and leaves the store unchanged; after a single put,
consuming twice for the same id returns the stored removed-headers mapping
the first time and absence the second time. -/
theorem take_if_present_consume_once
    (store : Store) (fid : String) (rh : RemovedHeaders)
    (habs : dictGet store fid = none) :
    takeIfPresent store fid = (none, store)
  ∧ (takeIfPresent (dictInsert store fid rh) fid).1 = some rh
  ∧ (takeIfPresent (takeIfPresent (dictInsert store fid rh) fid).2 fid).1 = none := by
  have h1 : dictGet (dictInsert store fid rh) fid = some rh := by
    rw [dictGet_dictInsert, if_pos rfl]
  refine ⟨?_, ?_, ?_⟩
  · simp [takeIfPresent, habs]
  · simp [takeIfPresent, h1]
  · simp [takeIfPresent, h1, dictGet_dictRemove_self]

theorem take_if_present_consume_once_witness :
    takeIfPresent [] "flow-9" = (none, [])
  ∧ (takeIfPresent (dictInsert [] "flow-9" [("x-request-id", "r9")]) "flow-9").1 =
      some [("x-request-id", "r9")]
  ∧ (takeIfPresent
      (takeIfPresent (dictInsert [] "flow-9" [("x-request-id", "r9")]) "flow-9").2
      "flow-9").1 = none :=
  take_if_present_consume_once [] "flow-9" [("x-request-id", "r9")] rfl

/-- C10: every entry the request hook ever inserts into the store maps
exactly the single key x-request-id to the folded correlation value of the
inbound request: whenever the store read changes at some id, the entry now
stored there is that singleton mapping. -/
theorem store_entries_only_correlation
    (flow : Flow) (store : Store) (fid : String)
    (hch : ¬ dictGet (requestHook flow store).2.1 fid = dictGet store fid) :
    ∃ R, dictGet (requestHook flow store).2.1 fid = some [("x-request-id", R)]
       ∧ hGet flow.request.headers "x-request-id" = some R := by
  by_cases hc : dictGet (dictOfHeaders flow.request.headers) "x-source" = some "connector-service"
  · exact absurd (by rw [requestHook_connector flow store hc]) hch
  · cases hcr : hContains flow.request.headers "x-request-id" with
    | false =>
      exact absurd (by rw [requestHook_normal_plain flow store hc hcr]) hch
    | true =>
      obtain ⟨R, hR⟩ : ∃ R, hGet flow.request.headers "x-request-id" = some R :=
        ⟨_, hGet_of_contains hcr⟩
      refine ⟨R, ?_, hR⟩
      rw [requestHook_normal_removed flow store R hc hR] at hch ⊢
      rw [dictGet_dictInsert] at hch ⊢
      by_cases hid : flow.id = fid
      · rw [if_pos hid]
      · rw [if_neg hid] at hch
        exact absurd rfl hch

theorem store_entries_only_correlation_witness :
    ∃ R, dictGet (requestHook flowNormal []).2.1 "flow-1" = some [("x-request-id", R)]
       ∧ hGet flowNormal.request.headers "x-request-id" = some R :=
  store_entries_only_correlation flowNormal [] "flow-1" (by decide)

end Fwd
